import Mathlib

/-!
Shallow embedding of src/index.js (NOAA -> Influx line protocol -> Grafana
Cloud worker).  JavaScript values reaching the pipeline are modelled by
`JVal`; JS numbers are modelled by `JNum` (a finite integer, NaN, or an
infinity).  The two host functions the code calls on strings,
`Date.parse` and `Number(...)`, are not part of the repository, so they are
kept abstract as the fields of a `JsEnv`; every theorem is proved for an
arbitrary environment.  Feed rows are JS objects, modelled as total maps
from property names to `JVal` (absent properties read as `undefined`).
-/

namespace Solarwind

/-- A JavaScript number as observed by this pipeline: a finite value
(restricted to integers, which is exact for every value the claims touch —
millisecond timestamps and integral field samples print and compare in JS
exactly as `Int` does), NaN, or an infinity (sign not observable here). -/
inductive JNum where
  | fin (n : Int)
  | nan
  | inf
deriving DecidableEq

/-- A JavaScript value reaching the pipeline from JSON / env vars. -/
inductive JVal where
  | vnull
  | vundefined
  | vnum (n : JNum)
  | vstr (s : String)
deriving DecidableEq

/-- JS `String(v)` on the modelled values. -/
def jstr : JVal → String
  | .vnull => "null"
  | .vundefined => "undefined"
  | .vnum (.fin n) => toString n
  | .vnum .nan => "NaN"
  | .vnum .inf => "Infinity"
  | .vstr s => s

/-- JS truthiness of a modelled value. -/
def truthy : JVal → Bool
  | .vnull => false
  | .vundefined => false
  | .vnum (.fin n) => n != 0
  | .vnum .nan => false
  | .vnum .inf => true
  | .vstr s => s != ""

/-- JS nullish test (`v ?? d` picks `d` exactly on these). -/
def nullish : JVal → Bool
  | .vnull => true
  | .vundefined => true
  | _ => false

/-- The two host string-parsing functions the source calls; they are not
part of the repository, so they stay abstract.  `dateParse s = none`
models `Date.parse(s)` returning NaN; `strToNum` models `Number(s)` on a
string. -/
structure JsEnv where
  dateParse : String → Option Int
  strToNum : String → JNum

/-- A raw feed row: a JS object, i.e. a total map from property names to
values (absent properties are `undefined`, which is also what the optional
chaining `r?.[k]` yields). -/
def Row : Type := String → JVal

/-- `const OVERLAP_MS = 10 * 60 * 1000` (src/index.js line 2). -/
def OVERLAP_MS : Int := 10 * 60 * 1000

/-- `toMs` (src/index.js lines 18-21): `Date.parse(String(t))`, `null`
when the result is not finite. -/
def toMs (env : JsEnv) (t : JVal) : Option Int :=
  env.dateParse (jstr t)

/-- JS falsiness of a `toMs` result (`!tms`): `null` or `0`. -/
def msFalsy : Option Int → Bool
  | none => true
  | some n => n == 0

/-- JS `String.prototype.trim` (a host builtin): strip whitespace from
both ends. -/
def jsTrim (s : String) : String :=
  String.mk
    (((s.data.dropWhile Char.isWhitespace).reverse.dropWhile
        Char.isWhitespace).reverse)

/-- JS `String.prototype.toLowerCase` (a host builtin), character-wise. -/
def jsLower (s : String) : String :=
  String.mk (s.data.map Char.toLower)

/-- `isFiniteNumber` (src/index.js lines 23-30). -/
def isFiniteNumber (env : JsEnv) (x : JVal) : Bool :=
  match x with
  | .vnull => false
  | .vundefined => false
  | .vnum (.fin _) => true
  | .vnum _ => false
  | .vstr _ =>
    let s := jsLower (jsTrim (jstr x))
    if s == "" || s == "null" || s == "nan" then false
    else
      match env.strToNum s with
      | .fin _ => true
      | _ => false

/-- `toNumber` (src/index.js lines 32-34): a native number is kept,
anything else goes through `Number(String(x).trim())` (no lower-casing
here, faithfully to the source). -/
def toNumber (env : JsEnv) (x : JVal) : JNum :=
  match x with
  | .vnum n => n
  | _ => env.strToNum (jsTrim (jstr x))

/-- `pickNumericFields` (src/index.js lines 36-43).  `fieldMap` is the
`Object.entries` view of the field map, in insertion order, as
(destKey, srcKey) pairs; the result is the built object's entries in the
same order (the maps used have pairwise distinct destination keys). -/
def pickNumericFields (env : JsEnv) (r : Row) (fieldMap : List (String × String)) :
    List (String × JNum) :=
  fieldMap.filterMap (fun p =>
    let v := r p.2
    if isFiniteNumber env v then some (p.1, toNumber env v) else none)

/-- The canonical point `{ tms, ...tags, ...fields }` built by
`normalizePoints`; the spread keys never collide for the maps used
(`tms`/tag keys/field keys are pairwise distinct), so the three parts are
kept separate. -/
structure CanonicalPoint where
  tms : Int
  tags : List (String × JVal)
  fields : List (String × JNum)
deriving DecidableEq

/-- `r?.[k] ?? "unknown"` (src/index.js line 54). -/
def orUnknown (v : JVal) : JVal :=
  if nullish v then .vstr "unknown" else v

/-- The body of the `flatMap` in `normalizePoints` (src/index.js lines
46-57), for one row. -/
def normalizeRow (env : JsEnv) (fieldMap : List (String × String))
    (tagKeys : List String) (r : Row) : List CanonicalPoint :=
  match toMs env (r "time_tag") with
  | none => []
  | some tms =>
    if tms == 0 then []
    else
      let fields := pickNumericFields env r fieldMap
      if fields.isEmpty then []
      else
        [⟨tms, tagKeys.map (fun k => (k, orUnknown (r k))), fields⟩]

/-- `normalizePoints` (src/index.js lines 45-58); `rows = none` models a
falsy `rows` argument (`rows || []`). -/
def normalizePoints (env : JsEnv) (rows : Option (List Row))
    (fieldMap : List (String × String)) (tagKeys : List String) :
    List CanonicalPoint :=
  (rows.getD []).flatMap (normalizeRow env fieldMap tagKeys)

/-- The cutoff `since` of `sliceNew` (src/index.js lines 62-64):
`lastTsMs ? lastTsMs - OVERLAP_MS : (bootstrapSinceMs ?? null)` — note a
zero watermark is falsy and falls through to the bootstrap value. -/
def cutoffMs (lastTsMs bootstrapSinceMs : Option Int) : Option Int :=
  match lastTsMs with
  | some w => if w == 0 then bootstrapSinceMs else some (w - OVERLAP_MS)
  | none => bootstrapSinceMs

/-- `since !== null && tms <= since` (src/index.js line 73). -/
def leSince (since : Option Int) (tms : Int) : Bool :=
  match since with
  | some s => decide (tms ≤ s)
  | none => false

/-- The three `continue` guards of the `sliceNew` loop body
(src/index.js lines 70-75), as one predicate on the raw `time_tag` value
`t`: the row survives when `t ? toMs(t) : null` is truthy (nonzero
parse), is above the cutoff, and `t` was not seen before.  All guards
read the row only through `t`. -/
def keepsTag (env : JsEnv) (since : Option Int) (seen : List JVal)
    (t : JVal) : Bool :=
  match (if truthy t then toMs env t else none) with
  | none => false
  | some tms =>
    !(tms == 0) && !(leSince since tms) && !(decide (t ∈ seen))

/-- The loop guards applied to a row. -/
def keeps (env : JsEnv) (since : Option Int) (seen : List JVal)
    (r : Row) : Bool :=
  keepsTag env since seen (r "time_tag")

/-- The filtering loop of `sliceNew` (src/index.js lines 66-78): `seen`
is the set of raw `time_tag` values already emitted (JS `Set` membership
on our values coincides with structural equality); `out` is accumulated
in input order, and `seen` grows exactly when a row is emitted. -/
def sliceFilter (env : JsEnv) (since : Option Int) :
    List JVal → List Row → List Row
  | _, [] => []
  | seen, r :: rs =>
    if keeps env since seen r then
      r :: sliceFilter env since (r "time_tag" :: seen) rs
    else
      sliceFilter env since seen rs

/-- The sort key `toMs(x.time_tag) ?? 0` of the comparator on
src/index.js line 80. -/
def tmsKey (env : JsEnv) (r : Row) : Int :=
  (toMs env (r "time_tag")).getD 0

/-- The comparator of src/index.js line 80 as a boolean order.
`Array.prototype.sort` is a stable sort, and for the consistent total
preorder induced by the key subtraction its output is exactly the stable
sort by `tmsKey`; `List.mergeSort` below is that stable sort. -/
def rowLe (env : JsEnv) (a b : Row) : Bool :=
  decide (tmsKey env a ≤ tmsKey env b)

/-- `sliceNew` (src/index.js lines 60-82); `rows = none` models a
non-array argument (`!Array.isArray(rows)`). -/
def sliceNew (env : JsEnv) (rows : Option (List Row))
    (lastTsMs bootstrapSinceMs : Option Int) : List Row :=
  match rows with
  | none => []
  | some rs =>
    (sliceFilter env (cutoffMs lastTsMs bootstrapSinceMs) [] rs).mergeSort
      (rowLe env)

/-- `latestTsMs` (src/index.js lines 84-88).  `filter(Boolean)` drops both
`null` and `0`; `Math.max(...)` of a nonempty list is a fold of `max`. -/
def latestTsMs (env : JsEnv) (rows : Option (List Row)) : Option Int :=
  match rows with
  | none => none
  | some rs =>
    if rs.isEmpty then none
    else
      match (rs.map (fun r => toMs env (r "time_tag"))).filterMap
          (fun o => match o with
            | some n => if n == 0 then none else some n
            | none => none) with
      | [] => none
      | x :: xs => some (xs.foldl max x)

/-- `MAP_WIND` (src/index.js lines 5-9) as its `Object.entries` view:
(destination key, source key) pairs in insertion order. -/
def MAP_WIND : List (String × String) :=
  [("speed_km_s", "proton_speed"),
   ("density_cm3", "proton_density"),
   ("temperature_k", "proton_temperature")]

/-- `MAP_MAG` (src/index.js lines 11-16). -/
def MAP_MAG : List (String × String) :=
  [("bx_gsm_nt", "bx_gsm"),
   ("by_gsm_nt", "by_gsm"),
   ("bz_gsm_nt", "bz_gsm"),
   ("bt_nt", "bt")]

/-- One global single-character replacement, the meaning of
`.replace(/c/g, repl)` for a one-character pattern. -/
def replaceChar (c : Char) (repl : List Char) (l : List Char) : List Char :=
  l.flatMap (fun x => if x == c then repl else [x])

/-- `escTag` (src/index.js lines 107-109) on the character list: escape
backslash first, then comma, space and the key/value separator. -/
def escTagL (l : List Char) : List Char :=
  replaceChar '=' ['\\', '=']
    (replaceChar ' ' ['\\', ' ']
      (replaceChar ',' ['\\', ',']
        (replaceChar '\\' ['\\', '\\'] l)))

/-- `escTag` (src/index.js lines 107-109): `String(v)` then the
replacement chain. -/
def escTag (v : JVal) : String :=
  String.mk (escTagL (jstr v).data)

/-- `escMeas` (src/index.js lines 110-112) on the character list. -/
def escMeasL (l : List Char) : List Char :=
  replaceChar ' ' ['\\', ' ']
    (replaceChar ',' ['\\', ',']
      (replaceChar '\\' ['\\', '\\'] l))

/-- `escMeas` (src/index.js lines 110-112). -/
def escMeas (m : String) : String :=
  String.mk (escMeasL m.data)

/-- The tag section body of `line` (src/index.js line 114): the tag key
goes out verbatim, only the value passes through `escTag`. -/
def tagsStr (tags : List (String × JVal)) : String :=
  String.intercalate "," (tags.map (fun p => p.1 ++ "=" ++ escTag p.2))

/-- The field section of `line` (src/index.js lines 115-118): each field
is rendered only when finite (`Number.isFinite`), as decimal text. -/
def fieldsStr (fields : List (String × JNum)) : String :=
  String.intercalate "," (fields.filterMap (fun p =>
    match p.2 with
    | .fin n => some (p.1 ++ "=" ++ toString n)
    | _ => none))

/-- `line` (src/index.js lines 113-123).  `BigInt(tms) * 1000000n` is
exact integer arithmetic, i.e. `Int` multiplication. -/
def line (measurement : String) (tags : List (String × JVal))
    (fields : List (String × JNum)) (tms : Int) : Option String :=
  let tagStr := tagsStr tags
  let fieldStr := fieldsStr fields
  if fieldStr == "" then none
  else
    some (escMeas measurement ++
      (if tagStr == "" then "" else "," ++ tagStr) ++
      " " ++ fieldStr ++ " " ++ toString (tms * 1000000))

/-- The persisted watermark record `{k, wind, mag}` (the progress-state
contract): integer milliseconds or absent per series. -/
structure SyncState where
  k : Option Int
  wind : Option Int
  mag : Option Int
deriving DecidableEq

/-- JS falsiness of a loaded watermark (`!last.k`): absent or zero. -/
def wmFalsy : Option Int → Bool
  | none => true
  | some n => n == 0

/-- `a ?? b` on a watermark (src/index.js lines 218-220). -/
def coalesce (a b : Option Int) : Option Int :=
  match a with
  | some x => some x
  | none => b

/-- The kp point `{ tms, kp }` built inline in `run`
(src/index.js lines 183-192). -/
structure KpPoint where
  tms : Int
  kp : JNum
deriving DecidableEq

/-- The kp-series extraction (src/index.js lines 183-192): parse the
timestamp, then fall back from `kp` to `kp_index`. -/
def kPointsOf (env : JsEnv) (rows : List Row) : List KpPoint :=
  rows.flatMap (fun r =>
    match toMs env (r "time_tag") with
    | none => []
    | some tms =>
      if tms == 0 then []
      else if isFiniteNumber env (r "kp") then [⟨tms, toNumber env (r "kp")⟩]
      else if isFiniteNumber env (r "kp_index") then
        [⟨tms, toNumber env (r "kp_index")⟩]
      else [])

/-- Encoding of one kp point (src/index.js lines 200-203). -/
def encodeKp (p : KpPoint) : Option String :=
  line "spaceweather_kp" [("source", .vstr "noaa")] [("kp", p.kp)] p.tms

/-- Encoding of one normalized point (src/index.js lines 205-215): the
destructuring `const (tms, source, ...fields) = p` recovers exactly the
tag/field split of the canonical point. -/
def encodePoint (measurement : String) (p : CanonicalPoint) : Option String :=
  line measurement p.tags p.fields p.tms

/-- The inputs of one `run` invocation (src/index.js lines 154-239),
with the external collaborators made explicit: the stored state record
(`none` models an absent KV record), the clock, the raw value of
`env.BOOTSTRAP_LOOKBACK_MINUTES` (a string, or absent), the three JSON
bodies fetched from the feeds (`none` models a non-array body), and
whether the sink POST succeeds.  A run is only modelled past the point
where all three fetches succeeded — a fetch failure throws before any of
the modelled steps. -/
structure RunInput where
  stored : Option SyncState
  now : Int
  lookbackRaw : Option String
  kRaw : Option (List Row)
  windRaw : Option (List Row)
  magRaw : Option (List Row)
  pushOk : Bool

/-- The observable outcome of a completed run (src/index.js lines 228 and
238). -/
structure RunResult where
  pushed : Nat
  committed : Bool
  state : SyncState
deriving DecidableEq

/-- The externally visible trace of one run: whether the sink POST was
issued, the state written to the store (if any), and the returned value
(`none` when the run throws). -/
structure RunTrace where
  pushAttempted : Bool
  putState : Option SyncState
  result : Option RunResult
deriving DecidableEq

/-- `last` (src/index.js lines 156-161): `(get ... ) || {}` then
`state.f ?? null` per field. -/
def lastOf (stored : Option SyncState) : SyncState :=
  match stored with
  | none => ⟨none, none, none⟩
  | some s => s

/-- `Number(env.BOOTSTRAP_LOOKBACK_MINUTES ?? 180)`
(src/index.js line 164). -/
def lookbackMin (env : JsEnv) (lookbackRaw : Option String) : JNum :=
  match lookbackRaw with
  | none => .fin 180
  | some s => env.strToNum s

/-- `bootstrapSinceMs` (src/index.js lines 165-168).  An `Infinity`
lookback makes the JS cutoff `-Infinity`, which excludes no finite
timestamp, i.e. behaves exactly as no bound (`none`). -/
def bootstrapSinceMs (last : SyncState) (lookback : JNum) (now : Int) :
    Option Int :=
  if wmFalsy last.k && wmFalsy last.wind && wmFalsy last.mag &&
      (match lookback with
       | .fin n => decide (0 < n)
       | .inf => true
       | .nan => false) then
    match lookback with
    | .fin n => some (now - n * 60 * 1000)
    | _ => none
  else none

/-- The bootstrap cutoff of a run. -/
def runBoot (env : JsEnv) (inp : RunInput) : Option Int :=
  bootstrapSinceMs (lastOf inp.stored) (lookbackMin env inp.lookbackRaw) inp.now

/-- `kNewRaw` (src/index.js line 178). -/
def kSliced (env : JsEnv) (inp : RunInput) : List Row :=
  sliceNew env inp.kRaw (lastOf inp.stored).k (runBoot env inp)

/-- `windNewRaw` (src/index.js line 179). -/
def windSliced (env : JsEnv) (inp : RunInput) : List Row :=
  sliceNew env inp.windRaw (lastOf inp.stored).wind (runBoot env inp)

/-- `magNewRaw` (src/index.js line 180). -/
def magSliced (env : JsEnv) (inp : RunInput) : List Row :=
  sliceNew env inp.magRaw (lastOf inp.stored).mag (runBoot env inp)

/-- `lines` (src/index.js lines 198-215): kp, then wind, then mag; the
`if (l)` guard is the `filterMap`. -/
def runLines (env : JsEnv) (inp : RunInput) : List String :=
  (kPointsOf env (kSliced env inp)).filterMap encodeKp ++
    (normalizePoints env (some (windSliced env inp)) MAP_WIND
      ["source"]).filterMap (encodePoint "solarwind_plasma") ++
    (normalizePoints env (some (magSliced env inp)) MAP_MAG
      ["source"]).filterMap (encodePoint "solarwind_mag")

/-- `proposedState` (src/index.js lines 217-221). -/
def runProposed (env : JsEnv) (inp : RunInput) : SyncState :=
  ⟨coalesce (latestTsMs env (some (kSliced env inp))) (lastOf inp.stored).k,
   coalesce (latestTsMs env (some (windSliced env inp))) (lastOf inp.stored).wind,
   coalesce (latestTsMs env (some (magSliced env inp))) (lastOf inp.stored).mag⟩

/-- `run` (src/index.js lines 154-239) past the fetches: the empty-batch
early return (lines 227-229), then the push (line 234, throwing on
failure before any state write), then the commit (line 235) and the
success result (line 238). -/
def run (env : JsEnv) (inp : RunInput) : RunTrace :=
  if (runLines env inp).isEmpty then
    ⟨false, none, some ⟨0, false, lastOf inp.stored⟩⟩
  else if inp.pushOk then
    ⟨true, some (runProposed env inp),
     some ⟨(runLines env inp).length, true, runProposed env inp⟩⟩
  else
    ⟨true, none, none⟩

/-- The state held by the store after a run, given what it held before:
it changes only if the run executed its `put`. -/
def finalStored (stored0 : Option SyncState) (tr : RunTrace) :
    Option SyncState :=
  match tr.putState with
  | some s => some s
  | none => stored0

/-! ## Helper lemmas about the slicing loop -/

theorem keepsTag_iff (env : JsEnv) (since : Option Int) (seen : List JVal)
    (t : JVal) :
    keepsTag env since seen t = true ↔
      truthy t = true ∧ ∃ tms, toMs env t = some tms ∧ tms ≠ 0 ∧
        leSince since tms = false ∧ t ∉ seen := by
  unfold keepsTag
  by_cases ht : truthy t = true
  · simp only [ht, if_true]
    cases hp : toMs env t with
    | none => simp [ht]
    | some tms => simp [ht, Bool.and_eq_true, ne_eq, and_assoc]
  · have ht2 : truthy t = false := by
      cases h : truthy t
      · rfl
      · exact absurd h ht
    simp [ht2]

theorem keepsTag_false_of_mem (env : JsEnv) (since : Option Int)
    (seen : List JVal) (t : JVal) (h : t ∈ seen) :
    keepsTag env since seen t = false := by
  cases hk : keepsTag env since seen t
  · rfl
  · exact absurd h ((keepsTag_iff env since seen t).mp hk).2.choose_spec.2.2.2

theorem mem_sliceFilter {env : JsEnv} {since : Option Int} :
    ∀ {l : List Row} {seen : List JVal} {r : Row},
      r ∈ sliceFilter env since seen l →
      ∃ tms, toMs env (r "time_tag") = some tms ∧ tms ≠ 0 ∧
        leSince since tms = false := by
  intro l
  induction l with
  | nil =>
    intro seen r h
    simp [sliceFilter] at h
  | cons a rs ih =>
    intro seen r h
    by_cases hk : keeps env since seen a = true
    · rw [sliceFilter, if_pos hk] at h
      rcases List.mem_cons.mp h with h1 | h2
      · subst h1
        obtain ⟨_, tms, hp, h0, hle, _⟩ :=
          (keepsTag_iff env since seen (r "time_tag")).mp hk
        exact ⟨tms, hp, h0, hle⟩
      · exact ih h2
    · rw [sliceFilter, if_neg hk] at h
      exact ih h

theorem sliceFilter_tags_nodup (env : JsEnv) (since : Option Int) :
    ∀ (l : List Row) (seen : List JVal),
      ((sliceFilter env since seen l).map (fun r => r "time_tag")).Nodup ∧
        ∀ v ∈ (sliceFilter env since seen l).map (fun r => r "time_tag"),
          v ∉ seen := by
  intro l
  induction l with
  | nil =>
    intro seen
    simp [sliceFilter]
  | cons a rs ih =>
    intro seen
    by_cases hk : keeps env since seen a = true
    · rw [sliceFilter, if_pos hk]
      obtain ⟨ih1, ih2⟩ := ih (a "time_tag" :: seen)
      have hnotin : a "time_tag" ∉
          (sliceFilter env since (a "time_tag" :: seen) rs).map
            (fun r => r "time_tag") := by
        intro hmem
        exact (ih2 _ hmem) (List.mem_cons_self _ _)
      refine ⟨List.nodup_cons.mpr ⟨hnotin, ih1⟩, ?_⟩
      intro v hv
      rcases List.mem_cons.mp hv with h1 | h2
      · subst h1
        exact ((keepsTag_iff env since seen (a "time_tag")).mp
          hk).2.choose_spec.2.2.2
      · exact fun hs => (ih2 v h2) (List.mem_cons_of_mem _ hs)
    · rw [sliceFilter, if_neg hk]
      exact ih seen

/-- Mergesort by the row key preserves the multiset of `time_tag` values. -/
theorem sliceNew_tags_perm (env : JsEnv) (rs : List Row)
    (last boot : Option Int) :
    List.Perm
      ((sliceNew env (some rs) last boot).map (fun r => r "time_tag"))
      ((sliceFilter env (cutoffMs last boot) [] rs).map
        (fun r => r "time_tag")) :=
  (List.mergeSort_perm _ (rowLe env)).map _

/-! ## Claim theorems about sliceNew -/

/-- C6: for every host environment, input sequence, prior watermark and
bootstrap cutoff, the sequence returned by `sliceNew` is sorted
non-decreasing by the parsed millisecond timestamp key
(`toMs(time_tag) ?? 0`, which on every retained row is the row's parsed
timestamp), regardless of the order of the input rows. -/
theorem sliceNew_sorted (env : JsEnv) (rows : Option (List Row))
    (last boot : Option Int) :
    (sliceNew env rows last boot).Pairwise
      (fun a b => tmsKey env a ≤ tmsKey env b) := by
  match rows with
  | none => simp [sliceNew]
  | some rs =>
    have h := @List.sorted_mergeSort Row (rowLe env)
      (fun a b c hab hbc => by
        simp only [rowLe, decide_eq_true_eq] at hab hbc ⊢
        omega)
      (fun a b => by
        simp only [rowLe]
        rcases Int.le_total (tmsKey env a) (tmsKey env b) with h | h
        · simp [h]
        · simp [h])
      (sliceFilter env (cutoffMs last boot) [] rs)
    exact h.imp (fun hab => by simpa [rowLe] using hab)

/-- C4: with a present (nonzero) prior watermark `w`, a parseable-to-valid
row (truthy raw tag, parse `t`, `t ≠ 0`) is kept by `sliceNew` if and only
if `t` is strictly greater than `w - OVERLAP_MS` (600000 ms overlap), and
every row `sliceNew` returns parses strictly above that cutoff; with no
prior watermark the bootstrap value is the cutoff instead
(`cutoffMs none b = b`). -/
theorem sliceNew_cutoff (env : JsEnv) (w : Int) (b : Option Int)
    (hw : w ≠ 0) :
    (∀ (r : Row) (t : Int), truthy (r "time_tag") = true →
      toMs env (r "time_tag") = some t → t ≠ 0 →
      (sliceNew env (some [r]) (some w) b = [r] ↔ w - OVERLAP_MS < t)) ∧
    (∀ (rows : List Row) (r : Row), r ∈ sliceNew env (some rows) (some w) b →
      ∃ t, toMs env (r "time_tag") = some t ∧ w - OVERLAP_MS < t) ∧
    cutoffMs none b = b := by
  have hc : cutoffMs (some w) b = some (w - OVERLAP_MS) := by
    simp [cutoffMs, hw]
  refine ⟨?_, ?_, rfl⟩
  · intro r t ht hp ht0
    by_cases hle : t ≤ w - OVERLAP_MS
    · have hkf : keeps env (cutoffMs (some w) b) [] r = false := by
        cases hk : keeps env (cutoffMs (some w) b) [] r
        · rfl
        · obtain ⟨_, tms, hp2, _, hle2, _⟩ :=
            (keepsTag_iff env _ [] (r "time_tag")).mp hk
          rw [hp] at hp2
          cases hp2
          rw [hc] at hle2
          simp [leSince] at hle2
          omega
      have hempty : sliceNew env (some [r]) (some w) b = [] := by
        show (sliceFilter env (cutoffMs (some w) b) [] [r]).mergeSort
          (rowLe env) = []
        rw [sliceFilter, if_neg (by simp [hkf]), sliceFilter]
        exact List.mergeSort_nil
      rw [hempty]
      constructor
      · intro h
        exact absurd h (by simp)
      · intro h
        omega
    · have hkt : keeps env (cutoffMs (some w) b) [] r = true := by
        apply (keepsTag_iff env _ [] (r "time_tag")).mpr
        refine ⟨ht, t, hp, ht0, ?_, by simp⟩
        rw [hc]
        simp [leSince]
        omega
      have hone : sliceNew env (some [r]) (some w) b = [r] := by
        show (sliceFilter env (cutoffMs (some w) b) [] [r]).mergeSort
          (rowLe env) = [r]
        rw [sliceFilter, if_pos hkt, sliceFilter]
        exact List.mergeSort_singleton r
      rw [hone]
      constructor
      · intro _
        omega
      · intro _
        rfl
  · intro rows r h
    have h2 : r ∈ sliceFilter env (cutoffMs (some w) b) [] rows := by
      have h3 : r ∈ (sliceFilter env (cutoffMs (some w) b) [] rows).mergeSort
          (rowLe env) := h
      exact List.mem_mergeSort.mp h3
    obtain ⟨tms, hp, h0, hle⟩ := mem_sliceFilter h2
    refine ⟨tms, hp, ?_⟩
    rw [hc] at hle
    simp [leSince] at hle
    omega

/-- C5: deduplication is by the raw `time_tag` value: the output raw
timestamp keys are pairwise distinct for every input; appending a second
row carrying the identical raw `time_tag` never changes the output,
whatever its other fields hold; and two rows with distinct raw strings
parsing to the same valid instant (above the cutoff) are each
retained. -/
theorem sliceNew_dedup (env : JsEnv) (last b : Option Int) :
    (∀ rows : Option (List Row),
      ((sliceNew env rows last b).map (fun r => r "time_tag")).Nodup) ∧
    (∀ r1 r2 : Row, r1 "time_tag" = r2 "time_tag" →
      sliceNew env (some [r1, r2]) last b = sliceNew env (some [r1]) last b) ∧
    (∀ (r1 r2 : Row) (t : Int), r1 "time_tag" ≠ r2 "time_tag" →
      truthy (r1 "time_tag") = true → truthy (r2 "time_tag") = true →
      toMs env (r1 "time_tag") = some t → toMs env (r2 "time_tag") = some t →
      t ≠ 0 → leSince (cutoffMs last b) t = false →
      sliceNew env (some [r1, r2]) last b = [r1, r2]) := by
  refine ⟨?_, ?_, ?_⟩
  · intro rows
    match rows with
    | none => simp [sliceNew]
    | some rs =>
      exact (sliceNew_tags_perm env rs last b).nodup_iff.mpr
        (sliceFilter_tags_nodup env (cutoffMs last b) rs []).1
  · intro r1 r2 h
    show (sliceFilter env (cutoffMs last b) [] [r1, r2]).mergeSort
        (rowLe env) =
      (sliceFilter env (cutoffMs last b) [] [r1]).mergeSort (rowLe env)
    congr 1
    have hkeq : keeps env (cutoffMs last b) [] r2 =
        keeps env (cutoffMs last b) [] r1 := by
      unfold keeps
      rw [h]
    by_cases hk : keeps env (cutoffMs last b) [] r1 = true
    · have hk2 : keeps env (cutoffMs last b) [r1 "time_tag"] r2 = false := by
        unfold keeps
        rw [← h]
        exact keepsTag_false_of_mem env _ _ _ (List.mem_singleton.mpr rfl)
      rw [sliceFilter, if_pos hk, sliceFilter, if_neg (by simp [hk2]),
        sliceFilter, sliceFilter, if_pos hk, sliceFilter]
    · rw [sliceFilter, if_neg hk, sliceFilter,
        if_neg (by rw [hkeq]; exact hk), sliceFilter, sliceFilter,
        if_neg hk, sliceFilter]
  · intro r1 r2 t hne ht1 ht2 hp1 hp2 ht0 hle
    have hk1 : keeps env (cutoffMs last b) [] r1 = true :=
      (keepsTag_iff env _ [] (r1 "time_tag")).mpr
        ⟨ht1, t, hp1, ht0, hle, by simp⟩
    have hk2 : keeps env (cutoffMs last b) [r1 "time_tag"] r2 = true :=
      (keepsTag_iff env _ [r1 "time_tag"] (r2 "time_tag")).mpr
        ⟨ht2, t, hp2, ht0, hle, by
          simp only [List.mem_singleton]
          exact fun hEq => hne hEq.symm⟩
    show (sliceFilter env (cutoffMs last b) [] [r1, r2]).mergeSort
        (rowLe env) = [r1, r2]
    rw [sliceFilter, if_pos hk1, sliceFilter, if_pos hk2, sliceFilter]
    apply List.mergeSort_of_sorted
    simp [List.pairwise_cons, rowLe, tmsKey, hp1, hp2]

/-! ## Concrete host environment and rows, used to evaluate the theorems
on closed inputs -/

/-- Decimal digits of a nonempty string, as a natural number. -/
def decNat : List Char → Option Nat
  | [] => none
  | l => l.foldl (fun acc c =>
      match acc with
      | none => none
      | some n => if c.isDigit then some (n * 10 + (c.toNat - 48)) else none)
      (some 0)

/-- A concrete stand-in for the host `Number(string)`: plain decimal
integers parse, everything else is NaN. -/
def decIntOf (s : String) : JNum :=
  match s.data with
  | '-' :: rest =>
    match decNat rest with
    | some n => .fin (-(n : Int))
    | none => .nan
  | l =>
    match decNat l with
    | some n => .fin (n : Int)
    | none => .nan

/-- A row literal: a finite property table; absent keys read as
`undefined`. -/
def rowOf (entries : List (String × JVal)) : Row := fun k =>
  match entries.find? (fun p => p.1 == k) with
  | some p => p.2
  | none => .vundefined

/-- A small concrete host environment: `Date.parse` as a finite table of
feed timestamp strings, `Number` as decimal-integer parsing. -/
def wEnv : JsEnv where
  dateParse := fun s =>
    if s == "T1000" then some 1000
    else if s == "Tneg" then some (-700000)
    else if s == "T999001" then some 999001
    else if s == "Tdup1" then some 5000
    else if s == "Tdup2" then some 5000
    else none
  strToNum := decIntOf

/-- A row whose timestamp parses to 1000 ms. -/
def r1000 : Row := rowOf [("time_tag", .vstr "T1000")]

/-- A row whose timestamp parses to -700000 ms. -/
def rNeg : Row := rowOf [("time_tag", .vstr "Tneg")]

/-- A kp-series row at 999001 ms with `kp = 3`. -/
def rKp : Row := rowOf [("time_tag", .vstr "T999001"), ("kp", .vnum (.fin 3))]

/-- Same raw timestamp string as `rDupB`, different field contents. -/
def rDupA : Row := rowOf [("time_tag", .vstr "T1000"), ("kp", .vnum (.fin 1))]

/-- Same raw timestamp string as `rDupA`, different field contents. -/
def rDupB : Row := rowOf [("time_tag", .vstr "T1000"), ("kp", .vnum (.fin 2))]

/-- A wind row whose timestamp does not parse. -/
def rBadTs : Row :=
  rowOf [("time_tag", .vstr "garbage"), ("proton_speed", .vnum (.fin 5))]

/-- A wind row whose only populated mapped field is the string " NaN ". -/
def rBadFields : Row :=
  rowOf [("time_tag", .vstr "T1000"), ("proton_speed", .vstr " NaN ")]

/-- First of two differently-written timestamps parsing to 5000 ms. -/
def rFmt1 : Row := rowOf [("time_tag", .vstr "Tdup1")]

/-- Second of two differently-written timestamps parsing to 5000 ms. -/
def rFmt2 : Row := rowOf [("time_tag", .vstr "Tdup2")]

/-- A stored state with all three watermarks at 1000000 ms. -/
def stRegress : SyncState := ⟨some 1000000, some 1000000, some 1000000⟩

/-- A run input with one kp row inside the overlap window and a
succeeding push. -/
def inpRegress : RunInput :=
  ⟨some stRegress, 0, none, some [rKp], none, none, true⟩

/-- The same run input with a failing push. -/
def inpFail : RunInput :=
  ⟨some stRegress, 0, none, some [rKp], none, none, false⟩

/-- A run input whose fetches all return non-array bodies. -/
def inpEmpty : RunInput := ⟨none, 0, none, none, none, none, true⟩

/-- C4 witness: with watermark 1000 ms the cutoff is -599000 ms, so the
row at t = 1000 (inside the overlap window) is re-included while the row
at t = -700000 is not kept. -/
theorem sliceNew_cutoff_witness :
    sliceNew wEnv (some [r1000]) (some 1000) none = [r1000] ∧
      sliceNew wEnv (some [rNeg]) (some 1000) none ≠ [rNeg] := by
  have h := sliceNew_cutoff wEnv 1000 none (by decide)
  constructor
  · exact (h.1 r1000 1000 (by decide) (by decide) (by decide)).mpr (by decide)
  · intro hEq
    have h2 := (h.1 rNeg (-700000) (by decide) (by decide) (by decide)).mp hEq
    exact absurd h2 (by decide)

/-- C5 witness: two rows sharing the raw string "T1000" collapse to one
regardless of fields, while the differently-written strings "Tdup1" and
"Tdup2", both parsing to 5000 ms, are each retained. -/
theorem sliceNew_dedup_witness :
    sliceNew wEnv (some [rDupA, rDupB]) none none =
        sliceNew wEnv (some [rDupA]) none none ∧
      sliceNew wEnv (some [rFmt1, rFmt2]) none none = [rFmt1, rFmt2] := by
  have h := sliceNew_dedup wEnv none none
  exact ⟨h.2.1 rDupA rDupB (by decide),
    h.2.2 rFmt1 rFmt2 5000 (by decide) (by decide) (by decide) (by decide)
      (by decide) (by decide) (by decide)⟩

/-! ## Encoder theorems -/

/-- The character-wise specification of tag escaping: backslash, comma,
space and the key/value separator each get a leading backslash. -/
def tagEscChar (c : Char) : List Char :=
  if c = '\\' ∨ c = ',' ∨ c = ' ' ∨ c = '=' then ['\\', c] else [c]

/-- The character-wise specification of measurement escaping: backslash,
comma and space each get a leading backslash. -/
def measEscChar (c : Char) : List Char :=
  if c = '\\' ∨ c = ',' ∨ c = ' ' then ['\\', c] else [c]

theorem escTagL_append (l1 l2 : List Char) :
    escTagL (l1 ++ l2) = escTagL l1 ++ escTagL l2 := by
  simp [escTagL, replaceChar, List.flatMap_append]

theorem escMeasL_append (l1 l2 : List Char) :
    escMeasL (l1 ++ l2) = escMeasL l1 ++ escMeasL l2 := by
  simp [escMeasL, replaceChar, List.flatMap_append]

theorem escTagL_singleton (x : Char) : escTagL [x] = tagEscChar x := by
  by_cases h1 : x = '\\'
  · subst h1
    rfl
  · by_cases h2 : x = ','
    · subst h2
      rfl
    · by_cases h3 : x = ' '
      · subst h3
        rfl
      · by_cases h4 : x = '='
        · subst h4
          rfl
        · simp [escTagL, replaceChar, tagEscChar, h1, h2, h3, h4]

theorem escMeasL_singleton (x : Char) : escMeasL [x] = measEscChar x := by
  by_cases h1 : x = '\\'
  · subst h1
    rfl
  · by_cases h2 : x = ','
    · subst h2
      rfl
    · by_cases h3 : x = ' '
      · subst h3
        rfl
      · simp [escMeasL, replaceChar, measEscChar, h1, h2, h3]

theorem escTagL_eq_flatMap (l : List Char) :
    escTagL l = l.flatMap tagEscChar := by
  induction l with
  | nil => rfl
  | cons x xs ih =>
    have h : escTagL (x :: xs) = escTagL [x] ++ escTagL xs := by
      simpa using escTagL_append [x] xs
    rw [h, escTagL_singleton, ih, List.flatMap_cons]

theorem escMeasL_eq_flatMap (l : List Char) :
    escMeasL l = l.flatMap measEscChar := by
  induction l with
  | nil => rfl
  | cons x xs ih =>
    have h : escMeasL (x :: xs) = escMeasL [x] ++ escMeasL xs := by
      simpa using escMeasL_append [x] xs
    rw [h, escMeasL_singleton, ih, List.flatMap_cons]

/-- C9 (counterexample): the claim says tag keys are escaped, but the
encoder emits the key verbatim: a tag key containing a space comes out
unescaped (the escaped-key line would differ). -/
theorem line_tag_key_unescaped :
    line "m" [("a b", .vstr "v")] [("f", .fin 1)] 1 =
        some "m,a b=v f=1 1000000" ∧
      "m,a b=v f=1 1000000" ≠ "m,a\\ b=v f=1 1000000" :=
  ⟨by decide, by decide⟩

/-- C9 (amended): in every encoded line the measurement is escaped
character-wise for backslash, comma and space, and each tag value is
escaped character-wise for backslash, comma, space and the key/value
separator, with the backslash replacement applied first; the tag key is
emitted verbatim, joined to the escaped value by the separator. -/
theorem line_escaping (v : JVal) (m k : String) :
    (escTag v).data = (jstr v).data.flatMap tagEscChar ∧
      (escMeas m).data = m.data.flatMap measEscChar ∧
      tagsStr [(k, v)] = k ++ "=" ++ escTag v := by
  refine ⟨?_, ?_, rfl⟩
  · show escTagL (jstr v).data = _
    exact escTagL_eq_flatMap _
  · show escMeasL m.data = _
    exact escMeasL_eq_flatMap _

/-- C7: every encoded line ends in the point's millisecond timestamp
multiplied by exactly 1000000, computed in integer arithmetic. -/
theorem line_ns_timestamp (m : String) (tags : List (String × JVal))
    (fields : List (String × JNum)) (tms : Int) (l : String)
    (h : line m tags fields tms = some l) :
    ∃ p : String, l = p ++ " " ++ toString (tms * 1000000) := by
  simp only [line] at h
  by_cases hf : (fieldsStr fields == "") = true
  · rw [if_pos hf] at h
    cases h
  · rw [if_neg hf] at h
    refine ⟨escMeas m ++
      (if tagsStr tags == "" then "" else "," ++ tagsStr tags) ++
      " " ++ fieldsStr fields, ?_⟩
    exact (Option.some.inj h).symm

/-- C7 witness: encoding at tms = 1700000000000 yields the timestamp
component 1700000000000000000 exactly. -/
theorem line_ns_timestamp_witness :
    ∃ p : String,
      "spaceweather_kp,source=noaa kp=4 1700000000000000000" =
        p ++ " " ++ toString ((1700000000000 : Int) * 1000000) :=
  line_ns_timestamp "spaceweather_kp" [("source", .vstr "noaa")]
    [("kp", .fin 4)] 1700000000000 _ (by decide)

/-- C8: a record whose timestamp does not parse or parses to zero, or
whose mapped fields all fail the finiteness test, yields no canonical
point; a string field that trims and lower-cases to "", "null" or "nan"
is never finite; and a line with no fields is suppressed.  All of these
are local drops by total functions — they cannot fail the run. -/
theorem normalize_drop_invalid (env : JsEnv) (fm : List (String × String))
    (tks : List String) (r : Row) (s m : String)
    (tags : List (String × JVal)) (tms : Int) :
    ((toMs env (r "time_tag") = none ∨ toMs env (r "time_tag") = some 0 ∨
        pickNumericFields env r fm = []) →
      normalizeRow env fm tks r = []) ∧
    ((jsLower (jsTrim s) = "" ∨ jsLower (jsTrim s) = "null" ∨
        jsLower (jsTrim s) = "nan") →
      isFiniteNumber env (.vstr s) = false) ∧
    line m tags [] tms = none := by
  refine ⟨?_, ?_, rfl⟩
  · intro h
    rcases h with h | h | h
    · simp [normalizeRow, h]
    · simp [normalizeRow, h]
    · cases hp : toMs env (r "time_tag") with
      | none => simp [normalizeRow, hp]
      | some t =>
        by_cases ht : t = 0
        · subst ht
          simp [normalizeRow, hp]
        · simp [normalizeRow, hp, ht, h]
  · intro h
    rcases h with h | h | h <;> simp [isFiniteNumber, jstr, h]

/-- C8 witness: an unparseable timestamp drops the wind record, a record
whose only mapped field is the string " NaN " drops too, and that string
is not a finite number. -/
theorem normalize_drop_invalid_witness :
    normalizeRow wEnv MAP_WIND ["source"] rBadTs = [] ∧
      normalizeRow wEnv MAP_WIND ["source"] rBadFields = [] ∧
      isFiniteNumber wEnv (.vstr " NaN ") = false := by
  have h := fun r s => normalize_drop_invalid wEnv MAP_WIND ["source"] r s
    "m" [] 0
  exact ⟨(h rBadTs "").1 (Or.inl (by decide)),
    (h rBadFields "").1 (Or.inr (Or.inr (by decide))),
    (h rBadTs " NaN ").2.1 (Or.inr (Or.inr (by decide)))⟩

/-! ## Run-level theorems -/

/-- C1: the state write happens only on the success path — a written
state implies the push was issued and succeeded; if the push fails the
run throws with no state write, so the store still holds exactly what it
held at the start of the run. -/
theorem run_commit_after_success (env : JsEnv) (inp : RunInput) :
    ((run env inp).putState ≠ none →
      inp.pushOk = true ∧ (run env inp).pushAttempted = true) ∧
    (inp.pushOk = false →
      (run env inp).putState = none ∧
        finalStored inp.stored (run env inp) = inp.stored) ∧
    (inp.pushOk = false → (run env inp).pushAttempted = true →
      (run env inp).result = none) := by
  unfold run
  by_cases he : ((runLines env inp).isEmpty = true)
  · rw [if_pos he]
    exact ⟨fun h => absurd rfl h, fun _ => ⟨rfl, rfl⟩,
      fun _ h => by cases h⟩
  · rw [if_neg he]
    by_cases hp : inp.pushOk = true
    · rw [if_pos hp]
      refine ⟨fun _ => ⟨hp, rfl⟩, fun hf => ?_, fun hf => ?_⟩
      · rw [hf] at hp
        cases hp
      · rw [hf] at hp
        cases hp
    · rw [if_neg hp]
      exact ⟨fun h => absurd rfl h, fun _ => ⟨rfl, rfl⟩, fun _ _ => rfl⟩

/-- C1 witness: a run with one encodable kp row and a failing push
attempts the push but writes no state and returns no result. -/
theorem run_commit_after_success_witness :
    (run wEnv inpFail).putState = none ∧
      finalStored inpFail.stored (run wEnv inpFail) = inpFail.stored ∧
      (run wEnv inpFail).result = none := by
  have h := run_commit_after_success wEnv inpFail
  have hk : kSliced wEnv inpFail = [rKp] := List.mergeSort_singleton rKp
  have hl : runLines wEnv inpFail =
      ["spaceweather_kp,source=noaa kp=3 999001000000"] := by
    simp [runLines, hk, windSliced, magSliced, sliceNew]
    decide
  have hatt : (run wEnv inpFail).pushAttempted = true := by
    simp [run, hl]
    split <;> rfl
  exact ⟨(h.2.1 rfl).1, (h.2.1 rfl).2, h.2.2 rfl hatt⟩

/-- C3: a run that encodes zero lines makes no push attempt, writes no
state, and returns `pushed = 0`, `committed = false` together with the
watermarks read at the start. -/
theorem run_empty_batch (env : JsEnv) (inp : RunInput)
    (h : runLines env inp = []) :
    run env inp = ⟨false, none, some ⟨0, false, lastOf inp.stored⟩⟩ := by
  unfold run
  rw [if_pos (by simp [h])]

/-- C3 witness: a run whose three fetches return non-array bodies slices
nothing, encodes nothing, and reports the no-op outcome. -/
theorem run_empty_batch_witness :
    run wEnv inpEmpty = ⟨false, none, some ⟨0, false, ⟨none, none, none⟩⟩⟩ :=
  run_empty_batch wEnv inpEmpty rfl

/-- C2 fails on the code: with stored watermark k = 1000000 ms and a feed
returning only a row inside the overlap window (t = 999001 ms), the run
pushes one line, commits, and writes back k = 999001 < 1000000 — the
watermark regresses on a successful run, because `proposedState` takes
`latestTsMs` of the sliced rows without clamping to the previous
watermark. -/
theorem run_watermark_regression :
    (lastOf inpRegress.stored).k = some 1000000 ∧
      run wEnv inpRegress =
        ⟨true, some ⟨some 999001, some 1000000, some 1000000⟩,
          some ⟨1, true, ⟨some 999001, some 1000000, some 1000000⟩⟩⟩ ∧
      (999001 : Int) < 1000000 := by
  refine ⟨rfl, ?_, by decide⟩
  have hk : kSliced wEnv inpRegress = [rKp] := List.mergeSort_singleton rKp
  have hl : runLines wEnv inpRegress =
      ["spaceweather_kp,source=noaa kp=3 999001000000"] := by
    simp [runLines, hk, windSliced, magSliced, sliceNew]
    decide
  simp [run, hl, runProposed, hk, windSliced, magSliced, sliceNew]
  decide

/-- Zero-to-absent normalization of a stored watermark. -/
def zeroToNone (o : Option Int) : Option Int :=
  match o with
  | some n => if n == 0 then none else some n
  | none => none

theorem wmFalsy_zeroToNone (o : Option Int) :
    wmFalsy (zeroToNone o) = wmFalsy o := by
  match o with
  | none => rfl
  | some n =>
    by_cases h : n = 0
    · subst h
      rfl
    · simp [zeroToNone, wmFalsy, h]

/-- C10: a stored watermark of 0 ms behaves as an absent watermark at
both use sites: `sliceNew` falls back to the bootstrap cutoff exactly as
with no watermark, and the cold-start bootstrap decision is unchanged by
replacing any zero watermark with an absent one. -/
theorem zero_watermark_absent (env : JsEnv) (rows : Option (List Row))
    (b : Option Int) (st : SyncState) (lb : JNum) (now : Int) :
    sliceNew env rows (some 0) b = sliceNew env rows none b ∧
      bootstrapSinceMs st lb now =
        bootstrapSinceMs
          ⟨zeroToNone st.k, zeroToNone st.wind, zeroToNone st.mag⟩ lb now := by
  constructor
  · cases rows <;> rfl
  · unfold bootstrapSinceMs
    simp only [wmFalsy_zeroToNone]

end Solarwind
